import Mathlib

/-
Shallow embedding of `src/proxy_ping_gui.py` (proxy_ping_monitor).

Conventions of the embedding:
* Python floats are modelled as exact rationals (`ℚ`); `round(x, 2)` is
  modelled as round-half-to-even at two decimal places over `ℚ`.
* `statistics.stdev` computes a square root, which is irrational in general;
  the embedding is parametric in the square-root function `sqrtFn : ℚ → ℚ`.
  Every claim about `jitter` holds for an arbitrary `sqrtFn`.
* Fallible Python code (expressions that can raise) is modelled with
  `Option` / `Except`: `none` / `Except.error ()` is a raised exception.
* The text output of the external `ping` process is an unconstrained
  `List Char` input; the two regular expressions of `run_ping` are modelled
  by explicit character scanners with Python `re` semantics (leftmost
  matching, non-overlapping continuation for `findall`, greedy classes —
  the character classes of each pattern are pairwise disjoint from what
  follows them, so greedy matching without backtracking is faithful).
-/

namespace ProxyPing

/-- Source line 27: number of echo requests per probe. -/
def PING_COUNT : ℕ := 4

/-- Source line 28: seconds between refresh rounds. -/
def REFRESH_INTERVAL : ℕ := 5

/-- Python 3 `round` at integer precision: round half to even. -/
def roundHalfEven (q : ℚ) : ℤ :=
  if q - ⌊q⌋ < 1/2 then ⌊q⌋
  else if (1:ℚ)/2 < q - ⌊q⌋ then ⌊q⌋ + 1
  else if ⌊q⌋ % 2 = 0 then ⌊q⌋ else ⌊q⌋ + 1

/-- Python `round(x, 2)` over the rational model. -/
def round2 (q : ℚ) : ℚ := (roundHalfEven (q * 100) : ℚ) / 100

/-- The `PingResult` data entity (source lines 34-38), after construction:
`times or []` has already been normalised. -/
structure PingResult where
  sent : ℕ
  received : ℕ
  times : List ℚ
deriving DecidableEq

/-- Constructor `PingResult.__init__` (source lines 35-38).  The `times` argument may be
`None` (modelled as `none`); `times or []` maps both `None` and the empty
list to `[]`. -/
def mkPingResult (sent received : ℕ) (times : Option (List ℚ)) : PingResult :=
  ⟨sent, received,
    match times with
    | none => []
    | some ts => if ts.isEmpty then [] else ts⟩

/-- The call `PingResult()` with all defaults — the zero-result / total-failure
sample (source line 234 calls it this way). -/
def zeroPingResult : PingResult := mkPingResult 0 0 none

/-- Python `statistics.mean` on a nonempty list: sum divided by length. -/
def mean (xs : List ℚ) : ℚ := xs.sum / (xs.length : ℚ)

/-- The sample variance used by `statistics.stdev`:
`Σ (x - mean)² / (n - 1)`. -/
def sampleVariance (xs : List ℚ) : ℚ :=
  ((xs.map (fun x => (x - mean xs) ^ 2)).sum) / ((xs.length : ℚ) - 1)

/-- Python `statistics.stdev`, parametric in the square-root function. -/
def stdev (sqrtFn : ℚ → ℚ) (xs : List ℚ) : ℚ := sqrtFn (sampleVariance xs)

/-- Property `PingResult.packet_loss` (source lines 40-44). -/
def PingResult.packet_loss (r : PingResult) : ℚ :=
  if r.sent = 0 then 100
  else round2 ((1 - (r.received : ℚ) / (r.sent : ℚ)) * 100)

/-- Property `PingResult.avg` (source lines 46-48): `None` on an empty `times`. -/
def PingResult.avg (r : PingResult) : Option ℚ :=
  match r.times with
  | [] => none
  | _ :: _ => some (round2 (mean r.times))

/-- Property `PingResult.minimum` (source lines 50-52): Python `min` is a left fold
of the binary minimum over the list. -/
def PingResult.minimum (r : PingResult) : Option ℚ :=
  match r.times with
  | [] => none
  | x :: xs => some (xs.foldl min x)

/-- Property `PingResult.maximum` (source lines 54-56). -/
def PingResult.maximum (r : PingResult) : Option ℚ :=
  match r.times with
  | [] => none
  | x :: xs => some (xs.foldl max x)

/-- Property `PingResult.jitter` (source lines 58-62). -/
def PingResult.jitter (r : PingResult) (sqrtFn : ℚ → ℚ) : ℚ :=
  if r.times.length < 2 then 0
  else round2 (stdev sqrtFn r.times)

/-! ### The `run_ping` output parser (source lines 65-90)

`run_ping` issues the external `ping` command and parses its captured
standard output.  The embedding takes that output text as an input. -/

/-- Python `\s` over the ASCII range. -/
def isWS (c : Char) : Bool :=
  c = ' ' || c = '\t' || c = '\n' || c = '\r' || c = '\x0b' || c = '\x0c'

/-- A character of the class `[\d\.]`. -/
def isTokChar (c : Char) : Bool := c.isDigit || c = '.'

/-- The optional `[=<]?` right after `time`: consume one `=` or `<` when
present (greedy; the following classes cannot match these characters, so no
backtracking arises). -/
def afterOpt (rest : List Char) : List Char :=
  match rest with
  | c :: r => if c = '=' || c = '<' then r else c :: r
  | [] => []

/-- One attempt of the pattern `time[=<]?\s*([\d\.]+)ms` (IGNORECASE) at the
head of the text.  On success, returns the captured group together with the
rest of the text after the match. -/
def matchTimeAt : List Char → Option (List Char × List Char)
  | t :: i :: m :: e :: rest =>
    if t.toLower = 't' && i.toLower = 'i' && m.toLower = 'm' && e.toLower = 'e' then
      let rest2 := List.dropWhile isWS (afterOpt rest)
      let tok := List.takeWhile isTokChar rest2
      match tok, List.drop tok.length rest2 with
      | _ :: _, m2 :: s2 :: rest3 =>
        if m2.toLower = 'm' && s2.toLower = 's' then some (tok, rest3) else none
      | _, _ => none
    else none
  | _ => none

theorem length_dropWhile_le (p : Char → Bool) (l : List Char) :
    (List.dropWhile p l).length ≤ l.length := by
  induction l with
  | nil => simp [List.dropWhile]
  | cons a l ih =>
    by_cases h : p a = true <;> simp [List.dropWhile, h]
    omega

theorem afterOpt_length_le (rest : List Char) :
    (afterOpt rest).length ≤ rest.length := by
  match rest with
  | [] => simp [afterOpt]
  | c :: r =>
    by_cases hc : (c = '=' || c = '<') = true <;> simp [afterOpt, hc]

/-- A successful match consumes at least the four characters of `time`,
a nonempty capture and the trailing `ms`, so the rest is strictly shorter. -/
theorem matchTimeAt_some_length {cs tok rest : List Char}
    (h : matchTimeAt cs = some (tok, rest)) : rest.length < cs.length := by
  match cs with
  | [] => simp [matchTimeAt] at h
  | [a] => simp [matchTimeAt] at h
  | [a, b] => simp [matchTimeAt] at h
  | [a, b, c] => simp [matchTimeAt] at h
  | t :: i :: m :: e :: rest0 =>
    simp only [matchTimeAt] at h
    split at h
    · split at h
      · rename_i x xs m2 s2 rest3 htk hdr
        split at h
        · simp only [Option.some.injEq, Prod.mk.injEq] at h
          have e2 := congrArg List.length hdr
          rw [List.length_drop] at e2
          simp only [List.length_cons] at e2
          have l2 := length_dropWhile_le isWS (afterOpt rest0)
          have l1 := afterOpt_length_le rest0
          have hr : rest = rest3 := h.2.symm
          subst hr
          simp only [List.length_cons]
          omega
        · exact absurd h (by simp)
      · exact absurd h (by simp)
    · exact absurd h (by simp)

/-- The call `re.findall(r"time[=<]?\s*([\d\.]+)ms", output, re.IGNORECASE)`, with an
explicit fuel argument for structural recursion: a failed attempt advances
one character, a successful match continues right after the match. -/
def findTimesF : ℕ → List Char → List (List Char)
  | 0, _ => []
  | fuel + 1, cs =>
    match matchTimeAt cs with
    | some (tok, rest) => tok :: findTimesF fuel rest
    | none =>
      match cs with
      | [] => []
      | _ :: cs2 => findTimesF fuel cs2

/-- The full `re.findall` of the time pattern over the whole output. -/
def findTimes (cs : List Char) : List (List Char) := findTimesF cs.length cs

theorem findTimesF_nil (fuel : ℕ) : findTimesF fuel [] = [] := by
  cases fuel <;> simp [findTimesF, matchTimeAt]

/-- Fuel adequacy: any fuel at least the length of the text gives the same
match list, so `findTimes` (fuel = length) is the fuel-free ideal. -/
theorem findTimesF_eq_of_le :
    ∀ (f1 : ℕ) (cs : List Char) (f2 : ℕ), cs.length ≤ f1 → cs.length ≤ f2 →
      findTimesF f1 cs = findTimesF f2 cs := by
  intro f1
  induction f1 with
  | zero =>
    intro cs f2 h1 _
    have : cs = [] := List.eq_nil_of_length_eq_zero (by omega)
    subst this
    simp [findTimesF_nil]
  | succ n ih =>
    intro cs f2 h1 h2
    match f2 with
    | 0 =>
      have : cs = [] := List.eq_nil_of_length_eq_zero (by omega)
      subst this
      simp [findTimesF_nil]
    | m + 1 =>
      cases hm : matchTimeAt cs with
      | some p =>
        have hlt := @matchTimeAt_some_length cs p.1 p.2 (by rw [hm])
        simp only [findTimesF, hm]
        rw [ih p.2 m (by omega) (by omega)]
      | none =>
        match cs with
        | [] => simp [findTimesF_nil]
        | c :: cs2 =>
          simp only [findTimesF, hm]
          exact ih cs2 m (by simp at h1 ⊢; omega) (by simp at h2 ⊢; omega)

/-- Decimal digit string to a natural number (Python `int`). -/
def digitsToNat (ds : List Char) : ℕ :=
  ds.foldl (fun n c => 10 * n + (c.toNat - 48)) 0

/-- One attempt of the pattern `Sent = (\d+), Received = (\d+)` (case
sensitive) at the head of the text, returning the two captured numbers. -/
def matchSentAt (cs : List Char) : Option (ℕ × ℕ) :=
  if ['S', 'e', 'n', 't', ' ', '=', ' '].isPrefixOf cs then
    let r0 := cs.drop 7
    let d1 := r0.takeWhile Char.isDigit
    if d1.isEmpty then none
    else
      let r1 := r0.drop d1.length
      if [',', ' ', 'R', 'e', 'c', 'e', 'i', 'v', 'e', 'd', ' ', '=', ' '].isPrefixOf r1 then
        let r2 := r1.drop 13
        let d2 := r2.takeWhile Char.isDigit
        if d2.isEmpty then none else some (digitsToNat d1, digitsToNat d2)
      else none
  else none

/-- The call `re.search(r"Sent = (\d+), Received = (\d+)", output)`: the leftmost
position where the pattern matches, if any. -/
def searchSent : List Char → Option (ℕ × ℕ)
  | [] => none
  | c :: cs =>
    match matchSentAt (c :: cs) with
    | some p => some p
    | none => searchSent cs

/-- Python `float(t)` on a captured `[\d\.]+` token: it succeeds exactly
when the token has at most one dot and at least one digit (`float(".")` and
`float("1.2.3")` raise `ValueError`), and then denotes
integer-part `+` fraction-part. -/
def parseFloatTok (tok : List Char) : Option ℚ :=
  if tok.count '.' ≤ 1 ∧ tok.any Char.isDigit = true then
    let ip := tok.takeWhile (fun c => c != '.')
    let fp := (tok.drop ip.length).drop 1
    some ((digitsToNat ip : ℚ) + (digitsToNat fp : ℚ) / ((10 : ℚ) ^ fp.length))
  else none

/-- The list comprehension `[float(t) for t in times]` (source line 80):
left to right, the first failing conversion raises. -/
def parseFloats : List (List Char) → Option (List ℚ)
  | [] => some []
  | t :: ts =>
    match parseFloatTok t with
    | none => none
    | some q =>
      match parseFloats ts with
      | none => none
      | some qs => some (q :: qs)

/-- Function `run_ping` (source lines 65-90) as a function of the probe count and the
captured standard output of the `ping` process.  `Except.error ()` models a
raised exception (the `float` conversion is the only fallible step). -/
def run_ping (count : ℕ) (output : List Char) : Except Unit PingResult :=
  match parseFloats (findTimes output) with
  | none => Except.error ()
  | some times =>
    match searchSent output with
    | some sr => Except.ok ⟨sr.1, sr.2, times⟩
    | none => Except.ok ⟨count, times.length, times⟩

/-! ### The display update (source lines 172-201) -/

/-- The semantic content of one row update of the table: the DOWN marker or
the displayed statistics, plus the row colour tag. -/
structure RowUpdate where
  isDown : Bool
  avgCell : Option ℚ
  minCell : Option ℚ
  maxCell : Option ℚ
  jitterCell : Option ℚ
  lossCell : ℚ
  color : String
deriving DecidableEq

/-- The fixed row written when an endpoint is DOWN (source lines 173-185):
the loss column shows the literal `100%`. -/
def downRow : RowUpdate := ⟨true, none, none, none, none, 100, "#CF6679"⟩

/-- Method `PingApp.update_row` (source lines 172-201).  When `received` is nonzero
but `times` is empty, `result.avg` is `None` and the comparison `avg < 100`
raises `TypeError`, modelled as `none`. -/
def update_row (sqrtFn : ℚ → ℚ) (r : PingResult) : Option RowUpdate :=
  if r.received = 0 then some downRow
  else
    match r.avg with
    | none => none
    | some a =>
      let color := if a < 100 then ("#4CAF50") else if a < 200 then ("#FB8C00") else ("#CF6679")
      some ⟨false, some a, r.minimum, r.maximum, some (r.jitter sqrtFn), r.packet_loss, color⟩

/-! ### One probing round (source lines 219-247)

`run_pings` submits one `run_ping` future per endpoint; `collect_results`
then gathers every future's outcome (substituting `PingResult()` when the
future raised), dispatches one row update per endpoint, and only afterwards
schedules `finish_pinging`.  The futures are modelled as the list of their
already-determined outcomes, in dictionary (insertion) order. -/

/-- The result-collection loop of `collect_results` (source lines 229-234):
a raised exception is replaced by the zero-result sample. -/
def collect_results (futures : List (String × Except Unit PingResult)) :
    List (String × PingResult) :=
  futures.map (fun nf =>
    (nf.1,
      match nf.2 with
      | Except.ok r => r
      | Except.error _ => zeroPingResult))

/-- What `collect_results` hands to the event loop, in order: one
`update_row` dispatch per endpoint (source lines 237-238), then the single
round-completion signal (source line 245). -/
inductive RoundEvent where
  | update (name : String) (result : PingResult)
  | roundComplete
deriving DecidableEq

/-- The ordered dispatches of one round (source lines 236-245). -/
def roundEvents (futures : List (String × Except Unit PingResult)) : List RoundEvent :=
  (collect_results futures).map (fun p => RoundEvent.update p.1 p.2)
    ++ [RoundEvent.roundComplete]

/-! ### The refresh coordinator (source lines 103-108, 203-247)

State: `countdown_seconds` and `is_pinging` (source lines 104-105), plus a
ghost field `inflight` counting the rounds that have been started and not
yet finished — it is what "overlap count" refers to.  `countdown_tick`
(source lines 203-217) returns the new state, the text written to the
timestamp label, and whether `run_pings` was invoked; invoking `run_pings`
sets `is_pinging` (source line 221) and starts one round.
`finish_pinging` (source lines 241-243) ends the round. -/

structure AppState where
  countdown_seconds : ℕ
  is_pinging : Bool
  inflight : ℕ
deriving DecidableEq

/-- Initial state from `PingApp.__init__` (source lines 104-105): countdown 0, not pinging. -/
def initState : AppState := ⟨0, false, 0⟩

/-- The timestamp label text set by `countdown_tick`. -/
inductive StatusText where
  | updating
  | nextUpdate (n : ℕ)
deriving DecidableEq

/-- Method `PingApp.countdown_tick` (source lines 203-217), together with the
immediate effect of `run_pings` (source line 221) when it is invoked.
Components: new state, label text (`none` when the branch leaves the label
untouched), and whether `run_pings` was invoked. -/
def countdown_tick (s : AppState) : AppState × Option StatusText × Bool :=
  if s.is_pinging then (s, some StatusText.updating, false)
  else if 0 < s.countdown_seconds then
    (⟨s.countdown_seconds - 1, s.is_pinging, s.inflight⟩,
      some (StatusText.nextUpdate s.countdown_seconds), false)
  else (⟨s.countdown_seconds, true, s.inflight + 1⟩, none, true)

/-- Callback `finish_pinging` (source lines 241-243). -/
def finish_pinging (s : AppState) : AppState :=
  ⟨REFRESH_INTERVAL, false, s.inflight - 1⟩

/-- The state after a tick. -/
def tickState (s : AppState) : AppState := (countdown_tick s).1

/-- The label text written by a tick. -/
def tickStatus (s : AppState) : Option StatusText := (countdown_tick s).2.1

/-- Whether a tick invoked `run_pings`. -/
def tickStartsRound (s : AppState) : Bool := (countdown_tick s).2.2

/-- Iterate: `n` consecutive ticks. -/
def iterTick : ℕ → AppState → AppState
  | 0, s => s
  | n + 1, s => iterTick n (tickState s)

/-- The states the app can reach: the timer fires ticks at will, and a
round-completion callback (`finish_pinging`) can fire whenever a round is
in flight. -/
inductive Reach : AppState → Prop where
  | init : Reach initState
  | tick {s : AppState} : Reach s → Reach (tickState s)
  | finish {s : AppState} : Reach s → s.is_pinging = true → Reach (finish_pinging s)

/-! ## Theorems -/

/-- Invariant of the coordinator: the number of in-flight rounds is exactly
the `is_pinging` flag. -/
theorem reach_inflight_eq {s : AppState} (h : Reach s) :
    s.inflight = if s.is_pinging then 1 else 0 := by
  induction h with
  | init => rfl
  | @tick s0 hr ih =>
    unfold tickState countdown_tick
    by_cases hp : s0.is_pinging = true
    · simpa [hp] using ih
    · by_cases hc : 0 < s0.countdown_seconds
      · simp only [Bool.not_eq_true] at hp
        simpa [hp, hc] using ih
      · simp only [Bool.not_eq_true] at hp
        simp [hp, hc] at ih ⊢
        omega
  | @finish s0 hr hp ih =>
    simp [finish_pinging, hp] at ih ⊢
    omega

/-- C1: The refresh coordinator starts in state `COUNTDOWN(0)`
(`countdown_seconds = 0`, `is_pinging` false); the very first tick invokes
`run_pings`; every tick taken while a round is in flight leaves
`countdown_seconds` unchanged and does not invoke `run_pings`; and in every
reachable state the number of rounds in flight is at most 1 — a second
round never starts while one is in flight. -/
theorem c1_coordinator_init_and_mutual_exclusion :
    initState.countdown_seconds = 0 ∧
    initState.is_pinging = false ∧
    tickStartsRound initState = true ∧
    (∀ s : AppState, s.is_pinging = true →
      (tickState s).countdown_seconds = s.countdown_seconds ∧
      tickStartsRound s = false) ∧
    (∀ s : AppState, Reach s → s.inflight ≤ 1) := by
  refine ⟨rfl, rfl, rfl, ?_, ?_⟩
  · intro s hs
    constructor <;> simp [tickState, tickStartsRound, countdown_tick, hs]
  · intro s hr
    have h := reach_inflight_eq hr
    by_cases hp : s.is_pinging = true <;> simp [hp] at h <;> omega

theorem c1_coordinator_init_and_mutual_exclusion_witness :
    (tickState ⟨7, true, 1⟩).countdown_seconds = 7 ∧
    tickStartsRound ⟨7, true, 1⟩ = false ∧
    initState.inflight ≤ 1 := by
  refine ⟨(c1_coordinator_init_and_mutual_exclusion.2.2.2.1 ⟨7, true, 1⟩ rfl).1,
    (c1_coordinator_init_and_mutual_exclusion.2.2.2.1 ⟨7, true, 1⟩ rfl).2,
    c1_coordinator_init_and_mutual_exclusion.2.2.2.2 initState Reach.init⟩

theorem iterTick_countdown :
    ∀ (i n k : ℕ), i ≤ n → iterTick i ⟨n, false, k⟩ = ⟨n - i, false, k⟩ := by
  intro i
  induction i with
  | zero => intro n k _; simp [iterTick]
  | succ j ih =>
    intro n k hle
    have hn : 0 < n := by omega
    have hstep : tickState ⟨n, false, k⟩ = ⟨n - 1, false, k⟩ := by
      simp [tickState, countdown_tick, hn]
    show iterTick j (tickState ⟨n, false, k⟩) = _
    rw [hstep, ih (n - 1) k (by omega)]
    congr 1
    omega

/-- C2: `finish_pinging` puts the coordinator in exactly
`COUNTDOWN(REFRESH_INTERVAL)`; a tick taken in `COUNTDOWN(n)` with `n > 0`
reports `n` to the display and moves to `COUNTDOWN(n-1)` without starting a
round; and from `COUNTDOWN(n)` the counter decrements to 0 over `n` ticks,
none of which starts a round, before the next tick starts the new round. -/
theorem c2_finish_resets_countdown_and_decrement :
    (∀ s : AppState, (finish_pinging s).countdown_seconds = REFRESH_INTERVAL ∧
      (finish_pinging s).is_pinging = false) ∧
    (∀ s : AppState, s.is_pinging = false → 0 < s.countdown_seconds →
      tickStatus s = some (StatusText.nextUpdate s.countdown_seconds) ∧
      tickState s = ⟨s.countdown_seconds - 1, false, s.inflight⟩ ∧
      tickStartsRound s = false) ∧
    (∀ n k : ℕ,
      (∀ i, i < n → tickStartsRound (iterTick i ⟨n, false, k⟩) = false) ∧
      iterTick n ⟨n, false, k⟩ = ⟨0, false, k⟩ ∧
      tickStartsRound (iterTick n ⟨n, false, k⟩) = true) := by
  refine ⟨fun s => ⟨rfl, rfl⟩, ?_, ?_⟩
  · intro s hp hc
    refine ⟨?_, ?_, ?_⟩ <;> simp [tickStatus, tickState, tickStartsRound, countdown_tick, hp, hc]
  · intro n k
    refine ⟨?_, iterTick_countdown n n k le_rfl |>.trans (by simp), ?_⟩
    · intro i hi
      rw [iterTick_countdown i n k (by omega)]
      have : 0 < n - i := by omega
      simp [tickStartsRound, countdown_tick, this]
    · rw [iterTick_countdown n n k le_rfl]
      simp [tickStartsRound, countdown_tick]

theorem c2_finish_resets_countdown_and_decrement_witness :
    tickStatus ⟨2, false, 0⟩ = some (StatusText.nextUpdate 2) ∧
    iterTick 3 ⟨3, false, 0⟩ = ⟨0, false, 0⟩ ∧
    tickStartsRound (iterTick 3 ⟨3, false, 0⟩) = true := by
  refine ⟨(c2_finish_resets_countdown_and_decrement.2.1 ⟨2, false, 0⟩ rfl (by decide)).1,
    (c2_finish_resets_countdown_and_decrement.2.2 3 0).2.1,
    (c2_finish_resets_countdown_and_decrement.2.2 3 0).2.2⟩

/-- C3: `packet_loss` is `100.0` when `sent = 0` and
`round((1 - received/sent) * 100, 2)` when `sent > 0`; the `sent = 0` case
returns directly, before the division. -/
theorem c3_packet_loss_formula (r : PingResult) :
    (r.sent = 0 → r.packet_loss = 100) ∧
    (0 < r.sent →
      r.packet_loss = round2 ((1 - (r.received : ℚ) / (r.sent : ℚ)) * 100)) := by
  constructor
  · intro h
    simp [PingResult.packet_loss, h]
  · intro h
    have hne : r.sent ≠ 0 := by omega
    simp [PingResult.packet_loss, hne]

theorem c3_packet_loss_formula_witness :
    (⟨0, 0, []⟩ : PingResult).packet_loss = 100 ∧
    (⟨4, 3, []⟩ : PingResult).packet_loss = round2 ((1 - (3 : ℚ) / 4) * 100) := by
  refine ⟨(c3_packet_loss_formula ⟨0, 0, []⟩).1 rfl, ?_⟩
  have h := (c3_packet_loss_formula ⟨4, 3, []⟩).2 (by decide)
  simpa using h

theorem packet_loss_of_received_zero (r : PingResult) (h : r.received = 0) :
    r.packet_loss = 100 := by
  rcases Nat.eq_zero_or_pos r.sent with hs | hs
  · simp [PingResult.packet_loss, hs]
  · have hne : r.sent ≠ 0 := by omega
    simp only [PingResult.packet_loss, if_neg hne, h, Nat.cast_zero, zero_div,
      sub_zero, one_mul]
    norm_num [round2, roundHalfEven]

/-- C4: `received = 0` forces `packet_loss` to be exactly `100` whatever
`sent` is, and `update_row` writes the DOWN row if and only if the sample
has `received = 0`. -/
theorem c4_down_iff_received_zero :
    (∀ r : PingResult, r.received = 0 → r.packet_loss = 100) ∧
    (∀ (f : ℚ → ℚ) (r : PingResult), r.received = 0 →
      update_row f r = some downRow) ∧
    (∀ (f : ℚ → ℚ) (r : PingResult) (row : RowUpdate),
      update_row f r = some row → (row.isDown = true ↔ r.received = 0)) := by
  refine ⟨packet_loss_of_received_zero, ?_, ?_⟩
  · intro f r h
    simp [update_row, h]
  · intro f r row h
    unfold update_row at h
    split at h
    · rename_i h0
      simp only [Option.some.injEq] at h
      simp [← h, downRow, h0]
    · rename_i h0
      split at h
      · exact absurd h (by simp)
      · simp only [Option.some.injEq] at h
        simp [← h, h0]

theorem c4_down_iff_received_zero_witness :
    (⟨4, 0, []⟩ : PingResult).packet_loss = 100 ∧
    update_row (fun q => q) ⟨4, 0, []⟩ = some downRow ∧
    (downRow.isDown = true ↔ (⟨4, 0, []⟩ : PingResult).received = 0) := by
  refine ⟨c4_down_iff_received_zero.1 ⟨4, 0, []⟩ rfl,
    c4_down_iff_received_zero.2.1 (fun q => q) ⟨4, 0, []⟩ rfl,
    c4_down_iff_received_zero.2.2 (fun q => q) ⟨4, 0, []⟩ downRow
      (c4_down_iff_received_zero.2.1 (fun q => q) ⟨4, 0, []⟩ rfl)⟩

/-- C8: `jitter` is `0` whenever fewer than two latency samples exist (in
particular for exactly one sample), and is `round(stdev(times), 2)` for two
or more samples — for an arbitrary square-root function. -/
theorem c8_jitter_cases (f : ℚ → ℚ) (r : PingResult) :
    (r.times.length < 2 → r.jitter f = 0) ∧
    (2 ≤ r.times.length → r.jitter f = round2 (stdev f r.times)) := by
  constructor
  · intro h
    simp [PingResult.jitter, h]
  · intro h
    have hne : ¬ r.times.length < 2 := by omega
    simp [PingResult.jitter, hne]

theorem c8_jitter_cases_witness :
    (⟨4, 1, [5]⟩ : PingResult).jitter (fun q => q) = 0 ∧
    (⟨4, 2, [1, 3]⟩ : PingResult).jitter (fun q => q) =
      round2 (stdev (fun q => q) [1, 3]) :=
  ⟨(c8_jitter_cases (fun q => q) ⟨4, 1, [5]⟩).1 (by decide),
    (c8_jitter_cases (fun q => q) ⟨4, 2, [1, 3]⟩).2 (by decide)⟩

/-- C9: `avg`, `minimum` and `maximum` are `None` exactly when `times` is
empty; on a nonempty `times`, `avg` is `round(mean(times), 2)` and
`minimum`/`maximum` are a least/greatest element of `times`. -/
theorem c9_avg_min_max (r : PingResult) :
    (r.avg = none ↔ r.times = []) ∧
    (r.minimum = none ↔ r.times = []) ∧
    (r.maximum = none ↔ r.times = []) ∧
    (r.times ≠ [] → r.avg = some (round2 (mean r.times))) ∧
    (∀ m, r.minimum = some m → m ∈ r.times ∧ ∀ q ∈ r.times, m ≤ q) ∧
    (∀ m, r.maximum = some m → m ∈ r.times ∧ ∀ q ∈ r.times, q ≤ m) := by
  refine ⟨?_, ?_, ?_, ?_, ?_, ?_⟩
  · unfold PingResult.avg
    cases r.times <;> simp
  · unfold PingResult.minimum
    cases r.times <;> simp
  · unfold PingResult.maximum
    cases r.times <;> simp
  · intro h
    cases htimes : r.times with
    | nil => exact absurd htimes h
    | cons x xs => simp [PingResult.avg, htimes]
  · intro m hm
    unfold PingResult.minimum at hm
    cases htimes : r.times with
    | nil => rw [htimes] at hm; exact absurd hm (by simp)
    | cons x xs =>
      rw [htimes] at hm
      simp only [Option.some.injEq] at hm
      have hq : (x :: xs).min? = some m := by rw [List.min?_cons']; exact congrArg some hm
      exact ⟨List.min?_mem (fun a b => min_choice a b) hq,
        fun q hqmem => (List.le_min?_iff (fun a b c => le_min_iff) hq).1 le_rfl q hqmem⟩
  · intro m hm
    unfold PingResult.maximum at hm
    cases htimes : r.times with
    | nil => rw [htimes] at hm; exact absurd hm (by simp)
    | cons x xs =>
      rw [htimes] at hm
      simp only [Option.some.injEq] at hm
      have hq : (x :: xs).max? = some m := by rw [List.max?_cons']; exact congrArg some hm
      exact ⟨List.max?_mem (fun a b => max_choice a b) hq,
        fun q hqmem => (List.max?_le_iff (fun a b c => max_le_iff) hq).1 le_rfl q hqmem⟩

theorem c9_avg_min_max_witness :
    (⟨4, 4, [50, 52, 48, 50]⟩ : PingResult).avg = some 50 ∧
    (⟨4, 4, [50, 52, 48, 50]⟩ : PingResult).minimum = some 48 ∧
    (⟨4, 4, [50, 52, 48, 50]⟩ : PingResult).maximum = some 52 ∧
    ((⟨0, 0, []⟩ : PingResult).avg = none ↔ ([] : List ℚ) = []) := by
  have h := c9_avg_min_max ⟨4, 4, [50, 52, 48, 50]⟩
  have havg := h.2.2.2.1 (by simp)
  refine ⟨?_, by norm_num [PingResult.minimum], by norm_num [PingResult.maximum],
    (c9_avg_min_max ⟨0, 0, []⟩).1⟩
  rw [havg]
  have : mean [50, 52, 48, 50] = 50 := by norm_num [mean]
  rw [show (⟨4, 4, [50, 52, 48, 50]⟩ : PingResult).times = [50, 52, 48, 50] from rfl, this]
  norm_num [round2, roundHalfEven]

/-- C10: `PingResult()` with all defaults is exactly the canonical DOWN
sample `(0, 0, [])` (a `None` `times` is normalised to the empty list), and
its derived statistics are 100% loss, absent avg/min/max, and zero jitter. -/
theorem c10_default_sample :
    zeroPingResult = ⟨0, 0, []⟩ ∧
    mkPingResult 0 0 none = ⟨0, 0, []⟩ ∧
    zeroPingResult.packet_loss = 100 ∧
    zeroPingResult.avg = none ∧
    zeroPingResult.minimum = none ∧
    zeroPingResult.maximum = none ∧
    (∀ f : ℚ → ℚ, zeroPingResult.jitter f = 0) :=
  ⟨rfl, rfl, rfl, rfl, rfl, rfl, fun _ => rfl⟩

theorem c10_default_sample_witness : zeroPingResult.jitter (fun q => q) = 0 :=
  c10_default_sample.2.2.2.2.2.2 (fun q => q)

/-- C5: a raised probe for one endpoint is replaced by the zero-result
sample — reported as DOWN with 100% loss — while every successfully probed
endpoint still has its own result collected; all per-endpoint updates are
dispatched before the single round-completion signal. -/
theorem c5_exception_does_not_abort_round
    (futures : List (String × Except Unit PingResult)) (name : String)
    (hmem : (name, Except.error ()) ∈ futures) :
    (name, zeroPingResult) ∈ collect_results futures ∧
    (∀ f : ℚ → ℚ, update_row f zeroPingResult = some downRow) ∧
    zeroPingResult.packet_loss = 100 ∧
    (∀ (n : String) (r : PingResult), (n, Except.ok r) ∈ futures →
      (n, r) ∈ collect_results futures) ∧
    (collect_results futures).length = futures.length ∧
    (∃ updates, roundEvents futures = updates ++ [RoundEvent.roundComplete] ∧
      ∀ p ∈ collect_results futures, RoundEvent.update p.1 p.2 ∈ updates) := by
  refine ⟨?_, fun f => rfl, rfl, ?_, ?_, ?_⟩
  · exact List.mem_map_of_mem _ hmem
  · intro n r h
    exact List.mem_map_of_mem _ h
  · simp [collect_results]
  · exact ⟨_, rfl, fun p hp => List.mem_map_of_mem _ hp⟩

theorem c5_exception_does_not_abort_round_witness :
    ("a", zeroPingResult) ∈
      collect_results [("a", Except.error ()), ("b", Except.ok ⟨4, 4, [50]⟩)] ∧
    ("b", (⟨4, 4, [50]⟩ : PingResult)) ∈
      collect_results [("a", Except.error ()), ("b", Except.ok ⟨4, 4, [50]⟩)] ∧
    (collect_results [("a", Except.error ()), ("b", Except.ok ⟨4, 4, [50]⟩)]).length = 2 := by
  have h := c5_exception_does_not_abort_round
    [("a", Except.error ()), ("b", Except.ok ⟨4, 4, [50]⟩)] "a"
    (List.mem_cons_self _ _)
  refine ⟨h.1, h.2.2.2.1 "b" ⟨4, 4, [50]⟩
    (List.mem_cons_of_mem _ (List.mem_cons_self _ _)), ?_⟩
  rw [h.2.2.2.2.1]
  rfl

theorem parseFloats_isSome {ts : List (List Char)}
    (h : ∀ tok ∈ ts, (parseFloatTok tok).isSome) : ∃ l, parseFloats ts = some l := by
  induction ts with
  | nil => exact ⟨[], rfl⟩
  | cons t ts ih =>
    have ht := h t (by simp)
    rcases Option.isSome_iff_exists.mp ht with ⟨q, hq⟩
    rcases ih (fun tok htok => h tok (by simp [htok])) with ⟨l, hl⟩
    exact ⟨q :: l, by simp [parseFloats, hq, hl]⟩

/-- C6, counterexample: on an output containing `time=.ms` the captured
token is `"."`, `float(".")` raises `ValueError`, and `run_ping` raises —
so it is not true that `run_ping` never raises for every output text. -/
theorem c6_run_ping_raises_counterexample :
    run_ping 4 ("time=.ms".toList) = Except.error () := rfl

/-- C6, amended: `run_ping` returns (does not raise) whenever every
captured time token converts as a float — in particular on every output
with no time match at all — and an output showing total failure (no time
matches and no `Sent/Received` summary) yields exactly the sample
`(sent = count, received = 0, times = [])`. -/
theorem c6_run_ping_total_failure (count : ℕ) (output : List Char)
    (hok : ∀ tok ∈ findTimes output, (parseFloatTok tok).isSome) :
    (∃ r, run_ping count output = Except.ok r) ∧
    (findTimes output = [] → searchSent output = none →
      run_ping count output = Except.ok ⟨count, 0, []⟩) := by
  constructor
  · rcases parseFloats_isSome hok with ⟨l, hl⟩
    unfold run_ping
    rw [hl]
    cases hs : searchSent output
    · exact ⟨_, rfl⟩
    · exact ⟨_, rfl⟩
  · intro hft hs
    unfold run_ping
    rw [hft, hs]
    rfl

theorem c6_run_ping_total_failure_witness :
    (∃ r, run_ping 4 ("no matches here".toList) = Except.ok r) ∧
    run_ping 4 ("no matches here".toList) = Except.ok ⟨4, 0, []⟩ := by
  have h := c6_run_ping_total_failure 4 ("no matches here".toList) (by decide)
  exact ⟨h.1, h.2 (by decide) (by decide)⟩

/-- C7, counterexample: the summary branch copies `sent` and `received`
verbatim from the text, so the output `Sent = 1, Received = 2` produces a
sample violating both `received ≤ sent` and `len(times) = received`. -/
theorem c7_invariant_counterexample :
    run_ping 4 ("Sent = 1, Received = 2".toList) = Except.ok ⟨1, 2, []⟩ ∧
    ¬((⟨1, 2, []⟩ : PingResult).received ≤ (⟨1, 2, []⟩ : PingResult).sent) ∧
    (⟨1, 2, []⟩ : PingResult).times.length ≠ (⟨1, 2, []⟩ : PingResult).received :=
  ⟨rfl, by decide, by decide⟩

/-- C7, amended: when the output has no `Sent/Received` summary, every
sample `run_ping` returns satisfies `len(times) = received` and
`sent = count`, and `received ≤ sent` holds as soon as at most `count` time
tokens were captured.  (When the summary is present, the two numbers are
read verbatim from the text and need not satisfy the invariant.) -/
theorem c7_invariant_fallback (count : ℕ) (output : List Char) (r : PingResult)
    (hs : searchSent output = none) (h : run_ping count output = Except.ok r) :
    r.sent = count ∧ r.received = r.times.length ∧
    (r.times.length ≤ count → r.received ≤ r.sent) := by
  unfold run_ping at h
  cases hp : parseFloats (findTimes output) with
  | none => rw [hp] at h; exact absurd h (by simp)
  | some times =>
    rw [hp, hs] at h
    simp only [Except.ok.injEq] at h
    subst h
    refine ⟨rfl, rfl, fun hl => ?_⟩
    simpa using hl

theorem c7_invariant_fallback_witness :
    run_ping 4 ("x".toList) = Except.ok ⟨4, 0, []⟩ ∧
    (⟨4, 0, []⟩ : PingResult).sent = 4 ∧
    (⟨4, 0, []⟩ : PingResult).received = (⟨4, 0, []⟩ : PingResult).times.length := by
  have h := c7_invariant_fallback 4 ("x".toList) ⟨4, 0, []⟩ (by decide) (by rfl)
  exact ⟨rfl, h.1, h.2.1⟩

end ProxyPing
